import Mathlib

/-!
Verification of `src/packages/react-intl/src/components/provider.tsx`.

The provider module is shallowly embedded as follows.

* JavaScript values that appear in configuration objects are modelled by
  `JSVal`.  JavaScript compares objects and functions by reference (`===`), so
  non-primitive values are represented by opaque reference identifiers
  (`fnRef`, `objRef`); equality of `JSVal` is exactly `===` of the modelled
  values.  `undefined` is an explicit value `undef`, so that a key present
  with value `undefined` can be distinguished from a missing key, as JS
  object-spread semantics require.
* JavaScript objects are association lists `JSObj` with property read
  (`getProp`, which yields `undef` both for a missing key and for a key bound
  to `undefined`, like JS property access), spread (`spread`) and
  destructuring-rest (`removeProp`).
* External collaborators (the `Intl` locale-support queries, the core message
  formatter from `@formatjs/intl`, React's `Children.toArray`) are parameters
  or clearly marked definitions modelled from the spec, since their code is
  not part of this repository.
-/

namespace ReactIntl

/-- A JavaScript value as it occurs in the provider's configuration objects
and substitution-value maps.  `fnRef`/`objRef` are opaque references
(reference equality = equality of the id).  `keyed v` is the wrapper function
produced by `assignUniqueKeysToParts` applied to the function `v`;
`keyedRecord v` is the fresh record produced by applying the key-assignment
to the record `v`; `keyedPart i v` is the child `v` wrapped by
`React.Children.toArray` with position-derived key `i`.  Wrapping with a
constructor models that the wrapper is a new value, distinct from its
argument and determined by it. -/
inductive JSVal : Type where
  | undef : JSVal
  | str : String → JSVal
  | boolV : Bool → JSVal
  | fnRef : Nat → JSVal
  | objRef : Nat → JSVal
  | keyed : JSVal → JSVal
  | keyedRecord : JSVal → JSVal
  | keyedPart : Nat → JSVal → JSVal
deriving DecidableEq

/-- A JavaScript object: an association list of own enumerable properties in
insertion order.  JS objects have no duplicate keys; theorems that depend on
this carry a `Nodup` hypothesis on the key list. -/
abbrev JSObj : Type := List (String × JSVal)

/-- JS property access `o[k]`: the first binding of `k`, or `undefined` when
the key is absent. -/
def getProp : JSObj → String → JSVal
  | [], _ => .undef
  | kv :: rest, k => if kv.1 = k then kv.2 else getProp rest k

/-- Whether `k` is an own key of `o` (`k in o`). -/
def hasProp : JSObj → String → Bool
  | [], _ => false
  | kv :: rest, k => kv.1 = k || hasProp rest k

/-- JS property write used by object spread: an existing key keeps its
position and takes the new value, a new key is appended. -/
def setProp (o : JSObj) (k : String) (v : JSVal) : JSObj :=
  if hasProp o k then o.map (fun kv => if kv.1 = k then (k, v) else kv)
  else o ++ [(k, v)]

/-- Destructuring rest `{k: _, ...rest} = o`: the object without key `k`. -/
def removeProp : JSObj → String → JSObj
  | [], _ => []
  | kv :: rest, k => if kv.1 = k then removeProp rest k else kv :: removeProp rest k

/-- JS object spread `{...a, ...b}`. -/
def spread (a b : JSObj) : JSObj :=
  b.foldl (fun acc kv => setProp acc kv.1 kv.2) a

/-- JS truthiness of a value (`if (v)`): `undefined`, `false` and the empty
string are falsy; objects and functions are truthy. -/
def truthy : JSVal → Bool
  | .undef => false
  | .str s => !(s = "")
  | .boolV b => b
  | _ => true

/-- JS string interpolation of a value inside a template literal.  Only the
string and `undefined` cases are exercised by the provider (the interpolated
fields are typed `string | undefined`); other values render as an opaque
placeholder. -/
def render : JSVal → String
  | .undef => "undefined"
  | .str s => s
  | .boolV b => if b then "true" else "false"
  | _ => "[object]"

/-- The ten configuration fields recognized by `processIntlConfig`, in the
order the source lists them. -/
def recognizedKeys : List String :=
  ["locale", "timeZone", "formats", "textComponent", "messages",
   "defaultLocale", "defaultFormats", "onError",
   "wrapRichTextChunksInFragment", "defaultRichTextElements"]

/-- `processIntlConfig` (provider.tsx lines 66–81): reduces an arbitrary
configuration object to the record of the ten recognized fields, each read
off the input and passed through unvalidated. -/
def processIntlConfig (config : JSObj) : JSObj :=
  [("locale", getProp config "locale"),
   ("timeZone", getProp config "timeZone"),
   ("formats", getProp config "formats"),
   ("textComponent", getProp config "textComponent"),
   ("messages", getProp config "messages"),
   ("defaultLocale", getProp config "defaultLocale"),
   ("defaultFormats", getProp config "defaultFormats"),
   ("onError", getProp config "onError"),
   ("wrapRichTextChunksInFragment", getProp config "wrapRichTextChunksInFragment"),
   ("defaultRichTextElements", getProp config "defaultRichTextElements")]

/-- Modelled from the spec: the `shallow-equal/objects` comparison used by
the change-detection gate is an external dependency, not code of this
repository.  Per spec §4.2 it holds when both objects have the same number of
keys and, for every key of the first, the two property values are
reference-equal (`===`, with a missing key reading as `undefined`). -/
def shallowEquals (a b : JSObj) : Bool :=
  a.length == b.length &&
    (a.map Prod.fst).all (fun k => decide (getProp a k = getProp b k))

/-- `isFormatXMLElementFn` from `intl-messageformat` (external dependency):
`typeof v === 'function'`.  In the model the function values are the opaque
function references and the wrappers produced by `assignUniqueKeysToParts`. -/
def isFormatXMLElementFn : JSVal → Bool
  | .fnRef _ => true
  | .keyed _ => true
  | _ => false

/-- Modelled from the spec: `assignUniqueKeysToParts` lives in
`../utils`, which is not under `src/`.  Per spec §4.5 it wraps a
renderable-function placeholder in a new function that assigns fresh,
deterministic identity tokens to its output; the wrapper is a new function
value distinct from, and determined by, the wrapped one. -/
def assignUniqueKeysToParts (v : JSVal) : JSVal :=
  .keyed v

/-- A substitution-values map passed to `formatMessage`
(`Record<string, PrimitiveType | ReactNode | FormatXMLElementFn>`). -/
abbrev VMap : Type := List (String × JSVal)

/-- `assignUniqueKeysToFormatXMLElementFnArgument` (provider.tsx lines
83–106): `undefined` passes through; otherwise a fresh map is built from the
input's keys in order, wrapping every function-valued entry with
`assignUniqueKeysToParts` and passing every other value through unchanged.
(The source builds the fresh map with `Object.keys(values).reduce`, so the
input map is never mutated; in the embedding the result is a new list.) -/
def assignUniqueKeysToFormatXMLElementFnArgument (values : Option VMap) :
    Option VMap :=
  match values with
  | none => none
  | some vs =>
    some (vs.map fun kv =>
      (kv.1, if isFormatXMLElementFn kv.2 then assignUniqueKeysToParts kv.2 else kv.2))

/-- The result of the core message formatter: either a single non-array
value (for example a plain string) or an array of mixed chunks. -/
inductive CoreChunks : Type where
  | single : JSVal → CoreChunks
  | parts : List JSVal → CoreChunks
deriving DecidableEq

/-- The external core message formatter `formatMessage` from
`@formatjs/intl`, taken as a parameter: (resolved config, formatters,
descriptor, substitution values) ↦ chunks. -/
abbrev CoreFormatMessage : Type := JSObj → Nat → JSVal → Option VMap → CoreChunks

/-- Modelled from the spec: `React.Children.toArray` (external React) wraps
each child of an array so it carries a stable position-derived key. -/
def reactChildrenToArray (chunks : List JSVal) : List JSVal :=
  chunks.enum.map fun p => .keyedPart p.1 p.2

/-- The module-level `formatMessage` (provider.tsx lines 108–125): pipes the
raw substitution values through
`assignUniqueKeysToFormatXMLElementFnArgument`, delegates to the core
formatter, and post-processes an array result with
`React.Children.toArray`; a non-array result is returned unchanged. -/
def formatMessage (core : CoreFormatMessage) (config : JSObj)
    (formatters : Nat) (descriptor : JSVal) (rawValues : Option VMap) :
    CoreChunks :=
  let values := assignUniqueKeysToFormatXMLElementFnArgument rawValues
  match core config formatters descriptor values with
  | .parts chunks => .parts (reactChildrenToArray chunks)
  | .single v => .single v

/-- The key-assignment transformation applied to the
`defaultRichTextElements` record inside `createIntl`, viewed at the opaque
config layer (a config field value is an opaque reference, compared by
`===`).  `undefined` passes through (the `if (!values) return values` guard);
a defined record is replaced by the fresh key-assigned record derived from
it.  The entry-level behaviour of the same source function is
`assignUniqueKeysToFormatXMLElementFnArgument` above. -/
def assignUniqueKeysToOpaqueRecord : JSVal → JSVal
  | .undef => .undef
  | v => .keyedRecord v

/-- Modelled from the spec: `DEFAULT_INTL_CONFIG` lives in `../utils`, which
is not under `src/`.  Per spec §4.3 it is the base-defaults record merged
under the normalized config; per spec §7 it supplies no `onError` (when the
caller configures none, diagnostics are dropped with no default logging) and
its `defaultLocale` is the hard-coded `"en"`.  The empty `formats`,
`messages` and `defaultFormats` records and the default `textComponent` are
module-scoped singleton objects, modelled as fixed opaque references. -/
def DEFAULT_INTL_CONFIG : JSObj :=
  [("formats", .objRef 1000), ("messages", .objRef 1001),
   ("timeZone", .undef), ("textComponent", .objRef 1002),
   ("defaultLocale", .str "en"), ("defaultFormats", .objRef 1003)]

/-- A structured diagnostic routed through `onError`: `InvalidConfigError`
for a missing locale (carrying the interpolated fallback name from its
message string), and `MissingDataError` for a locale unsupported by
`Intl.NumberFormat` resp. `Intl.DateTimeFormat` (carrying the interpolated
locale and fallback names from the message string). -/
inductive Diagnostic : Type where
  | invalidConfig : String → Diagnostic
  | missingNumberFormatData : String → String → Diagnostic
  | missingDateTimeFormatData : String → String → Diagnostic
deriving DecidableEq

/-- The platform internationalization API (external collaborator):
`Intl.NumberFormat.supportedLocalesOf(l).length` and
`Intl.DateTimeFormat.supportedLocalesOf(l).length` as support predicates. -/
structure Env : Type where
  numberSupported : JSVal → Bool
  dateTimeSupported : JSVal → Bool

/-- The formatting shape returned by `createIntl`: the resolved
configuration fields plus the formatter bundle.  The bound per-capability
formatting functions of the source are closures over exactly this data
(resolved config and the formatters built from the cache), so the shape is
modelled by the data they capture; `formattersCache` records which cache
`createFormatters` was given. -/
structure IntlShape : Type where
  resolvedConfig : JSObj
  formattersCache : Nat
deriving DecidableEq

/-- The `resolvedConfig` local of `createIntl` (provider.tsx lines 139–148):
`{...DEFAULT_INTL_CONFIG, ...config, defaultRichTextElements}` where
`config` is the input without `defaultRichTextElements` (destructuring rest)
and `defaultRichTextElements` is the key-assigned version of the
destructured field. -/
def resolvedOf (config : JSObj) : JSObj :=
  setProp (spread DEFAULT_INTL_CONFIG (removeProp config "defaultRichTextElements"))
    "defaultRichTextElements"
    (assignUniqueKeysToOpaqueRecord (getProp config "defaultRichTextElements"))

/-- `createIntl` (provider.tsx lines 127–179 and the returned shape):
builds the resolved configuration, then runs the three mutually exclusive
diagnostic checks — missing locale (with the `defaultLocale || 'en'` fix-up
of the effective locale), missing `Intl.NumberFormat` data, missing
`Intl.DateTimeFormat` data — each reporting through `onError` only when that
callback is truthy.  The returned pair is the shape together with the list
of diagnostics delivered to `onError` (empty when none fired or no callback
is configured); the source never throws on any of these paths. -/
def createIntl (env : Env) (config : JSObj) (cache : Nat) :
    IntlShape × List Diagnostic :=
  let resolvedConfig := resolvedOf config
  let locale := getProp resolvedConfig "locale"
  let defaultLocale := getProp resolvedConfig "defaultLocale"
  let onError := getProp resolvedConfig "onError"
  if truthy locale = false then
    (⟨setProp resolvedConfig "locale"
        (if truthy defaultLocale then defaultLocale else .str "en"), cache⟩,
     if truthy onError then [Diagnostic.invalidConfig (render defaultLocale)] else [])
  else if (!env.numberSupported locale && truthy onError) = true then
    (⟨resolvedConfig, cache⟩,
     [Diagnostic.missingNumberFormatData (render locale) (render defaultLocale)])
  else if (!env.dateTimeSupported locale && truthy onError) = true then
    (⟨resolvedConfig, cache⟩,
     [Diagnostic.missingDateTimeFormatData (render locale) (render defaultLocale)])
  else
    (⟨resolvedConfig, cache⟩, [])

/-- The locale the shape formats with (`resolvedConfig.locale` after
`createIntl` has applied its fix-up, captured by every bound formatting
function). -/
def effectiveLocale (shape : IntlShape) : JSVal :=
  getProp shape.resolvedConfig "locale"

/-- The provider's component state (provider.tsx lines 43–59): the intl
cache created at instantiation, the current shape, and the previous-config
memo. -/
structure State : Type where
  cache : Nat
  intl : IntlShape
  prevConfig : JSObj
deriving DecidableEq

/-- The `Partial<State>` returned by `getDerivedStateFromProps` on a
rebuild: it carries only the `intl` and `prevConfig` keys, so React's state
merge leaves `cache` untouched. -/
structure DerivedStateUpdate : Type where
  intl : IntlShape
  prevConfig : JSObj
deriving DecidableEq

/-- `getDerivedStateFromProps` (provider.tsx lines 248–260): normalize the
incoming props; if the result is shallow-equal to the memoized previous
config, return `null`; otherwise return a partial state with a fresh shape
built by `createIntl` from the new normalized config and the state's cache,
and the new normalized config as the memo. -/
def getDerivedStateFromProps (env : Env) (props : JSObj) (st : State) :
    Option DerivedStateUpdate :=
  let config := processIntlConfig props
  if shallowEquals st.prevConfig config then none
  else some ⟨(createIntl env config st.cache).1, config⟩

/-- React's application of a `getDerivedStateFromProps` result to the
current state: `null` keeps the state, a partial update replaces exactly the
keys it carries (here `intl` and `prevConfig`). -/
def applyDerivedState (st : State) : Option DerivedStateUpdate → State
  | none => st
  | some u => ⟨st.cache, u.intl, u.prevConfig⟩

/-- The provider's state at instantiation (provider.tsx lines 241–246):
a fresh cache, the shape built from the normalized initial props with that
cache, and the normalized initial props as the memo. -/
def initialState (env : Env) (cacheId : Nat) (props : JSObj) : State :=
  ⟨cacheId, (createIntl env (processIntlConfig props) cacheId).1,
   processIntlConfig props⟩

/-- Runs the provider through a sequence of prop updates, returning the
final state and, for each rebuild that occurred, the cache that
`getDerivedStateFromProps` handed to `createIntl` (which is the state's
`cache` field at that step). -/
def providerTrace (env : Env) : State → List JSObj → State × List Nat
  | st, [] => (st, [])
  | st, props :: rest =>
    match getDerivedStateFromProps env props st with
    | none => providerTrace env st rest
    | some u =>
      let r := providerTrace env (applyDerivedState st (some u)) rest
      (r.1, st.cache :: r.2)

/-- The `defaultLocale` the merge in `createIntl` resolves to, expressed on
the input configuration: the config's own `defaultLocale` property when the
key is present (even when bound to `undefined`, which object spread copies
over the default), else the `"en"` supplied by `DEFAULT_INTL_CONFIG`. -/
def configDefaultLocale (cfg : JSObj) : JSVal :=
  if hasProp cfg "defaultLocale" then getProp cfg "defaultLocale" else .str "en"

/-- Shallow equality of two objects as the spec states it: the same key set,
and reference-equal (`===`) values at every key. -/
def ShallowEqObj (a b : JSObj) : Prop :=
  (∀ k, hasProp a k = hasProp b k) ∧ (∀ k, getProp a k = getProp b k)

/-! ### Lemmas about the JS object operations -/

theorem hasProp_iff_mem (o : JSObj) (k : String) :
    hasProp o k = true ↔ k ∈ o.map Prod.fst := by
  induction o with
  | nil => simp [hasProp]
  | cons kv rest ih =>
    simp only [hasProp, Bool.or_eq_true, decide_eq_true_eq, List.map_cons,
      List.mem_cons, ih]
    constructor
    · rintro (h | h)
      · exact Or.inl h.symm
      · exact Or.inr h
    · rintro (h | h)
      · exact Or.inl h.symm
      · exact Or.inr h

theorem getProp_eq_undef_of_not_hasProp (o : JSObj) (k : String)
    (h : hasProp o k = false) : getProp o k = .undef := by
  induction o with
  | nil => rfl
  | cons kv rest ih =>
    simp only [hasProp, Bool.or_eq_false_iff, decide_eq_false_iff_not] at h
    simp [getProp, h.1, ih h.2]

theorem getProp_append (a b : JSObj) (k : String) :
    getProp (a ++ b) k = if hasProp a k then getProp a k else getProp b k := by
  induction a with
  | nil => simp [getProp, hasProp]
  | cons kv rest ih =>
    by_cases hk : kv.1 = k
    · simp [getProp, hasProp, hk]
    · simp [getProp, hasProp, hk, ih]

theorem getProp_replaceMap_self (o : JSObj) (k : String) (v : JSVal)
    (h : hasProp o k = true) :
    getProp (o.map (fun kv => if kv.1 = k then (k, v) else kv)) k = v := by
  induction o with
  | nil => simp [hasProp] at h
  | cons kv rest ih =>
    by_cases hk : kv.1 = k
    · rw [List.map_cons, if_pos hk]
      simp [getProp]
    · rw [List.map_cons, if_neg hk]
      simp only [hasProp, Bool.or_eq_true, decide_eq_true_eq, hk, false_or] at h
      simp only [getProp, if_neg hk]
      exact ih h

theorem getProp_replaceMap_ne (o : JSObj) (k k' : String) (v : JSVal)
    (hne : k' ≠ k) :
    getProp (o.map (fun kv => if kv.1 = k then (k, v) else kv)) k' =
      getProp o k' := by
  induction o with
  | nil => rfl
  | cons kv rest ih =>
    by_cases hk : kv.1 = k
    · rw [List.map_cons, if_pos hk]
      simp only [getProp]
      rw [if_neg (fun hh => hne (Eq.symm hh)),
        if_neg (fun hh => hne (Eq.symm (hk.symm.trans hh)))]
      exact ih
    · rw [List.map_cons, if_neg hk]
      simp only [getProp]
      by_cases hk' : kv.1 = k'
      · rw [if_pos hk', if_pos hk']
      · rw [if_neg hk', if_neg hk']
        exact ih

theorem getProp_setProp_self (o : JSObj) (k : String) (v : JSVal) :
    getProp (setProp o k v) k = v := by
  unfold setProp
  by_cases h : hasProp o k
  · rw [if_pos h]
    exact getProp_replaceMap_self o k v h
  · rw [if_neg h, getProp_append]
    rw [Bool.not_eq_true] at h
    simp [h, getProp]

theorem getProp_setProp_ne (o : JSObj) (k k' : String) (v : JSVal)
    (hne : k' ≠ k) : getProp (setProp o k v) k' = getProp o k' := by
  unfold setProp
  by_cases h : hasProp o k
  · rw [if_pos h]
    exact getProp_replaceMap_ne o k k' v hne
  · rw [if_neg h, getProp_append]
    by_cases h' : hasProp o k'
    · rw [if_pos h']
    · rw [Bool.not_eq_true] at h'
      rw [h', if_neg (by simp), getProp, if_neg (fun hh => hne (Eq.symm hh))]
      exact (getProp_eq_undef_of_not_hasProp o k' h').symm

theorem getProp_spread (a b : JSObj) (k : String)
    (hnd : (b.map Prod.fst).Nodup) :
    getProp (spread a b) k = if hasProp b k then getProp b k else getProp a k := by
  induction b generalizing a with
  | nil => simp [spread, hasProp]
  | cons kv rest ih =>
    rw [List.map_cons, List.nodup_cons] at hnd
    obtain ⟨hnd1, hnd2⟩ := hnd
    have hstep : spread a (kv :: rest) = spread (setProp a kv.1 kv.2) rest := rfl
    rw [hstep, ih _ hnd2]
    by_cases hrest : hasProp rest k
    · have hne : ¬ kv.1 = k := by
        intro hh
        exact hnd1 (hh ▸ (hasProp_iff_mem rest k).mp hrest)
      simp [hrest, hasProp, getProp, hne]
    · by_cases hk : kv.1 = k
      · subst hk
        simp [hrest, hasProp, getProp, getProp_setProp_self]
      · have hne : k ≠ kv.1 := fun hh => hk (Eq.symm hh)
        simp [hrest, hasProp, getProp, hk, getProp_setProp_ne a kv.1 k kv.2 hne]

theorem getProp_removeProp_ne (o : JSObj) (k k' : String) (hne : k' ≠ k) :
    getProp (removeProp o k) k' = getProp o k' := by
  induction o with
  | nil => rfl
  | cons kv rest ih =>
    by_cases hk : kv.1 = k
    · have hkk' : ¬ kv.1 = k' := fun hh => hne ((hh.symm.trans hk))
      rw [removeProp, if_pos hk, ih, getProp, if_neg hkk']
    · rw [removeProp, if_neg hk]
      simp only [getProp]
      by_cases hk' : kv.1 = k'
      · rw [if_pos hk', if_pos hk']
      · rw [if_neg hk', if_neg hk']
        exact ih

theorem hasProp_removeProp_ne (o : JSObj) (k k' : String) (hne : k' ≠ k) :
    hasProp (removeProp o k) k' = hasProp o k' := by
  induction o with
  | nil => rfl
  | cons kv rest ih =>
    by_cases hk : kv.1 = k
    · have hkk' : ¬ kv.1 = k' := fun hh => hne ((hh.symm.trans hk))
      rw [removeProp, if_pos hk, ih]
      simp [hasProp, hkk']
    · rw [removeProp, if_neg hk]
      simp [hasProp, ih]

theorem removeProp_sublist (o : JSObj) (k : String) :
    List.Sublist (removeProp o k) o := by
  induction o with
  | nil => exact List.Sublist.refl _
  | cons kv rest ih =>
    by_cases hk : kv.1 = k
    · rw [removeProp, if_pos hk]
      exact List.Sublist.cons _ ih
    · rw [removeProp, if_neg hk]
      exact List.Sublist.cons₂ _ ih

theorem nodup_keys_removeProp (o : JSObj) (k : String)
    (hnd : (o.map Prod.fst).Nodup) : ((removeProp o k).map Prod.fst).Nodup :=
  List.Nodup.sublist (List.Sublist.map Prod.fst (removeProp_sublist o k)) hnd

/-! ### Lemmas about the resolved configuration of `createIntl` -/

theorem getProp_resolvedOf_passthrough (cfg : JSObj) (k : String)
    (hnd : (cfg.map Prod.fst).Nodup) (hne : k ≠ "defaultRichTextElements")
    (hdef : getProp DEFAULT_INTL_CONFIG k = .undef) :
    getProp (resolvedOf cfg) k = getProp cfg k := by
  unfold resolvedOf
  rw [getProp_setProp_ne _ _ _ _ hne,
    getProp_spread _ _ _ (nodup_keys_removeProp cfg _ hnd),
    hasProp_removeProp_ne cfg _ k hne, getProp_removeProp_ne cfg _ k hne]
  by_cases h : hasProp cfg k
  · rw [if_pos h]
  · rw [Bool.not_eq_true] at h
    rw [h, if_neg (by simp), hdef, getProp_eq_undef_of_not_hasProp cfg k h]

theorem getProp_resolvedOf_defaultLocale (cfg : JSObj)
    (hnd : (cfg.map Prod.fst).Nodup) :
    getProp (resolvedOf cfg) "defaultLocale" =
      if hasProp cfg "defaultLocale" then getProp cfg "defaultLocale"
      else .str "en" := by
  unfold resolvedOf
  rw [getProp_setProp_ne _ _ _ _ (by decide),
    getProp_spread _ _ _ (nodup_keys_removeProp cfg _ hnd),
    hasProp_removeProp_ne cfg _ _ (by decide),
    getProp_removeProp_ne cfg _ _ (by decide)]
  by_cases h : hasProp cfg "defaultLocale"
  · rw [if_pos h, if_pos h]
  · rw [Bool.not_eq_true] at h
    rw [h, if_neg (by simp), if_neg (by simp [h])]
    rfl

theorem getProp_resolvedOf_locale (cfg : JSObj)
    (hnd : (cfg.map Prod.fst).Nodup) :
    getProp (resolvedOf cfg) "locale" = getProp cfg "locale" :=
  getProp_resolvedOf_passthrough cfg "locale" hnd (by decide) (by decide)

theorem getProp_resolvedOf_onError (cfg : JSObj)
    (hnd : (cfg.map Prod.fst).Nodup) :
    getProp (resolvedOf cfg) "onError" = getProp cfg "onError" :=
  getProp_resolvedOf_passthrough cfg "onError" hnd (by decide) (by decide)

/-! ### Lemmas about `processIntlConfig` and `shallowEquals` -/

theorem getProp_processIntlConfig_mem (c : JSObj) (k : String)
    (hk : k ∈ recognizedKeys) :
    getProp (processIntlConfig c) k = getProp c k := by
  simp only [recognizedKeys, List.mem_cons, List.not_mem_nil, or_false] at hk
  rcases hk with rfl | rfl | rfl | rfl | rfl | rfl | rfl | rfl | rfl | rfl <;> rfl

theorem getProp_processIntlConfig_not_mem (c : JSObj) (k : String)
    (hk : ¬ k ∈ recognizedKeys) :
    getProp (processIntlConfig c) k = .undef := by
  simp only [recognizedKeys, List.mem_cons, List.not_mem_nil, or_false,
    not_or] at hk
  obtain ⟨h1, h2, h3, h4, h5, h6, h7, h8, h9, h10⟩ := hk
  simp only [processIntlConfig, getProp]
  rw [if_neg (fun hh => h1 (Eq.symm hh)), if_neg (fun hh => h2 (Eq.symm hh)),
    if_neg (fun hh => h3 (Eq.symm hh)), if_neg (fun hh => h4 (Eq.symm hh)),
    if_neg (fun hh => h5 (Eq.symm hh)), if_neg (fun hh => h6 (Eq.symm hh)),
    if_neg (fun hh => h7 (Eq.symm hh)), if_neg (fun hh => h8 (Eq.symm hh)),
    if_neg (fun hh => h9 (Eq.symm hh)), if_neg (fun hh => h10 (Eq.symm hh))]

theorem processIntlConfig_keys (c : JSObj) :
    (processIntlConfig c).map Prod.fst = recognizedKeys := rfl

theorem hasProp_processIntlConfig (c c' : JSObj) (k : String) :
    hasProp (processIntlConfig c) k = hasProp (processIntlConfig c') k := rfl

theorem processIntlConfig_ext (c c' : JSObj)
    (h : ∀ k ∈ recognizedKeys, getProp c k = getProp c' k) :
    processIntlConfig c = processIntlConfig c' := by
  simp only [processIntlConfig]
  rw [h "locale" (by decide), h "timeZone" (by decide),
    h "formats" (by decide), h "textComponent" (by decide),
    h "messages" (by decide), h "defaultLocale" (by decide),
    h "defaultFormats" (by decide), h "onError" (by decide),
    h "wrapRichTextChunksInFragment" (by decide),
    h "defaultRichTextElements" (by decide)]

theorem processIntlConfig_idem (x : JSObj) :
    processIntlConfig (processIntlConfig x) = processIntlConfig x :=
  processIntlConfig_ext (processIntlConfig x) x
    (fun k hk => getProp_processIntlConfig_mem x k hk)

theorem shallowEquals_self (a : JSObj) : shallowEquals a a = true := by
  simp only [shallowEquals, Bool.and_eq_true, beq_iff_eq, List.all_eq_true]
  exact ⟨trivial, fun k _ => by simp⟩

theorem shallowEquals_processIntlConfig_iff (p q : JSObj) :
    shallowEquals (processIntlConfig p) (processIntlConfig q) = true ↔
      ShallowEqObj (processIntlConfig p) (processIntlConfig q) := by
  constructor
  · intro h
    rw [shallowEquals, Bool.and_eq_true, List.all_eq_true] at h
    refine ⟨fun k => hasProp_processIntlConfig p q k, fun k => ?_⟩
    by_cases hk : k ∈ recognizedKeys
    · exact of_decide_eq_true (h.2 k (by rw [processIntlConfig_keys]; exact hk))
    · rw [getProp_processIntlConfig_not_mem p k hk,
        getProp_processIntlConfig_not_mem q k hk]
  · intro h
    rw [shallowEquals, Bool.and_eq_true, List.all_eq_true]
    exact ⟨rfl, fun k _ => decide_eq_true (h.2 k)⟩

/-- The wrapper returned by `assignUniqueKeysToParts` is a new function
value, distinct from the function it wraps. -/
theorem assignUniqueKeysToParts_ne (v : JSVal) :
    assignUniqueKeysToParts v ≠ v := by
  unfold assignUniqueKeysToParts
  induction v with
  | undef => exact fun h => JSVal.noConfusion h
  | str s => exact fun h => JSVal.noConfusion h
  | boolV b => exact fun h => JSVal.noConfusion h
  | fnRef n => exact fun h => JSVal.noConfusion h
  | objRef n => exact fun h => JSVal.noConfusion h
  | keyed w ih => exact fun h => ih (JSVal.keyed.inj h)
  | keyedRecord w ih => exact fun h => JSVal.noConfusion h
  | keyedPart i w ih => exact fun h => JSVal.noConfusion h

/-! ### Claim theorems -/

/-- C5: `processIntlConfig` returns the record of exactly the ten recognized
fields, in source order, each value passed through from the input without
validation (`undefined` included); it is a pure function of its input (a
Lean function by construction, with no effects in the embedding), and fields
outside the recognized set neither appear in the output (its key list is
exactly `recognizedKeys`) nor affect it (configs agreeing on the recognized
keys normalize identically). -/
theorem processIntlConfig_normalizes (c : JSObj) :
    (processIntlConfig c).map Prod.fst = recognizedKeys ∧
    (∀ k ∈ recognizedKeys, getProp (processIntlConfig c) k = getProp c k) ∧
    (∀ c' : JSObj, (∀ k ∈ recognizedKeys, getProp c k = getProp c' k) →
      processIntlConfig c = processIntlConfig c') :=
  ⟨rfl, fun k hk => getProp_processIntlConfig_mem c k hk,
   fun c' h => processIntlConfig_ext c c' h⟩

/-- Witness for C5 at a concrete input: an extraneous `children` field does
not affect the normalized configuration. -/
theorem processIntlConfig_normalizes_witness :
    processIntlConfig [("locale", JSVal.str "fr"), ("children", JSVal.objRef 7)] =
      processIntlConfig [("locale", JSVal.str "fr")] :=
  (processIntlConfig_normalizes
      [("locale", JSVal.str "fr"), ("children", JSVal.objRef 7)]).2.2
    [("locale", JSVal.str "fr")] (by decide)

/-- C6: normalizing an already-normalized configuration is a no-op up to
shallow equality (here the two normalizations are in fact equal, so the
shallow-equality check of the gate accepts them). -/
theorem processIntlConfig_roundTrip (x : JSObj) :
    shallowEquals (processIntlConfig (processIntlConfig x))
      (processIntlConfig x) = true := by
  rw [processIntlConfig_idem]
  exact shallowEquals_self _

/-- C8: on a present substitution-values map,
`assignUniqueKeysToFormatXMLElementFnArgument` returns a map with the same
keys in the same order in which every function-valued entry is replaced by
the key-assigning wrapper (a new function value, distinct from the
original) and every non-function value is passed through unchanged.  The
source builds the result by folding into a fresh object, so the input map is
never mutated; in the embedding the result is a new list and the input is
untouched by construction. -/
theorem assignUniqueKeys_values_entries (vs : VMap) :
    ∃ out, assignUniqueKeysToFormatXMLElementFnArgument (some vs) = some out ∧
      List.Forall₂ (fun a b => b.1 = a.1 ∧
        (isFormatXMLElementFn a.2 = true →
          b.2 = assignUniqueKeysToParts a.2 ∧ b.2 ≠ a.2) ∧
        (isFormatXMLElementFn a.2 = false → b.2 = a.2)) vs out := by
  refine ⟨_, rfl, ?_⟩
  induction vs with
  | nil => exact List.Forall₂.nil
  | cons kv rest ih =>
    refine List.Forall₂.cons ⟨rfl, ?_, ?_⟩ ih
    · intro hfn
      constructor
      · simp [hfn]
      · simpa [hfn] using assignUniqueKeysToParts_ne kv.2
    · intro hfn
      simp [hfn]

/-- Witness for C8 at a concrete map with one function-valued and one
string-valued entry: the function entry is wrapped (by a value distinct from
the original), the string entry passes through. -/
theorem assignUniqueKeys_values_entries_witness :
    assignUniqueKeysToFormatXMLElementFnArgument
        (some [("b", JSVal.fnRef 3), ("x", JSVal.str "s")]) =
      some [("b", JSVal.keyed (JSVal.fnRef 3)), ("x", JSVal.str "s")] ∧
    JSVal.keyed (JSVal.fnRef 3) ≠ JSVal.fnRef 3 := by
  obtain ⟨out, hout, hrel⟩ :=
    assignUniqueKeys_values_entries [("b", JSVal.fnRef 3), ("x", JSVal.str "s")]
  have hout2 : out = [("b", JSVal.keyed (JSVal.fnRef 3)), ("x", JSVal.str "s")] :=
    Option.some.inj (hout.symm.trans (by decide))
  subst hout2
  rcases hrel with - | ⟨h1, -⟩
  exact ⟨by decide, (h1.2.1 (by decide)).2⟩

/-- C9: `formatMessage` pipes its substitution values through
`assignUniqueKeysToFormatXMLElementFnArgument` before delegating to the core
formatter; an array result comes back with each part wrapped to carry its
stable position-derived key (`React.Children.toArray`), and any non-array
result — in particular a single string — is returned unchanged. -/
theorem formatMessage_pipes_and_wraps (core : CoreFormatMessage)
    (config : JSObj) (formatters : Nat) (descriptor : JSVal)
    (rawValues : Option VMap) :
    formatMessage core config formatters descriptor rawValues =
      (match core config formatters descriptor
          (assignUniqueKeysToFormatXMLElementFnArgument rawValues) with
       | .parts chunks => .parts (chunks.enum.map fun p => .keyedPart p.1 p.2)
       | .single v => .single v) := rfl

/-- C10: an absent (`undefined`) substitution-values map passes through
`assignUniqueKeysToFormatXMLElementFnArgument` unchanged — no fresh empty
map is built — so `formatMessage` called without values performs no key
assignment and hands `undefined` to the core formatter. -/
theorem assignUniqueKeys_undefined_passthrough (core : CoreFormatMessage)
    (config : JSObj) (formatters : Nat) (descriptor : JSVal) :
    assignUniqueKeysToFormatXMLElementFnArgument none = none ∧
    formatMessage core config formatters descriptor none =
      (match core config formatters descriptor none with
       | .parts chunks => .parts (reactChildrenToArray chunks)
       | .single v => .single v) :=
  ⟨rfl, rfl⟩

/-- C1: when the newly normalized configuration is shallow-equal (same key
set, reference-equal values) to the memoized previous normalized
configuration, `getDerivedStateFromProps` returns `null`, so React keeps the
state — shape and memo — verbatim; otherwise it returns a state update
holding the shape freshly built by `createIntl` from the new normalized
configuration and the existing cache, with the new normalized configuration
as the memo. -/
theorem getDerivedStateFromProps_gate (env : Env) (prevProps props : JSObj)
    (cache : Nat) (intl0 : IntlShape) :
    (ShallowEqObj (processIntlConfig prevProps) (processIntlConfig props) →
      getDerivedStateFromProps env props
          ⟨cache, intl0, processIntlConfig prevProps⟩ = none ∧
      applyDerivedState ⟨cache, intl0, processIntlConfig prevProps⟩
          (getDerivedStateFromProps env props
            ⟨cache, intl0, processIntlConfig prevProps⟩) =
        ⟨cache, intl0, processIntlConfig prevProps⟩) ∧
    (¬ ShallowEqObj (processIntlConfig prevProps) (processIntlConfig props) →
      getDerivedStateFromProps env props
          ⟨cache, intl0, processIntlConfig prevProps⟩ =
        some ⟨(createIntl env (processIntlConfig props) cache).1,
          processIntlConfig props⟩) := by
  constructor
  · intro h
    have hb : shallowEquals (processIntlConfig prevProps)
        (processIntlConfig props) = true :=
      (shallowEquals_processIntlConfig_iff prevProps props).mpr h
    have hnone : getDerivedStateFromProps env props
        ⟨cache, intl0, processIntlConfig prevProps⟩ = none := by
      simp [getDerivedStateFromProps, hb]
    exact ⟨hnone, by rw [hnone]; rfl⟩
  · intro h
    have hb : shallowEquals (processIntlConfig prevProps)
        (processIntlConfig props) = false := by
      cases hEq : shallowEquals (processIntlConfig prevProps)
          (processIntlConfig props) with
      | true =>
        exact absurd ((shallowEquals_processIntlConfig_iff prevProps props).mp hEq) h
      | false => rfl
    simp [getDerivedStateFromProps, hb]

/-- Witness for C1: with identical props the gate returns `null` and the
state survives unchanged; with a changed `locale` it returns the freshly
built shape and the new memo. -/
theorem getDerivedStateFromProps_gate_witness :
    (getDerivedStateFromProps ⟨fun _ => true, fun _ => true⟩ []
        ⟨0, ⟨[], 0⟩, processIntlConfig []⟩ = none) ∧
    (getDerivedStateFromProps ⟨fun _ => true, fun _ => true⟩
        [("locale", JSVal.str "fr")] ⟨0, ⟨[], 0⟩, processIntlConfig []⟩ =
      some ⟨(createIntl ⟨fun _ => true, fun _ => true⟩
          (processIntlConfig [("locale", JSVal.str "fr")]) 0).1,
        processIntlConfig [("locale", JSVal.str "fr")]⟩) :=
  ⟨((getDerivedStateFromProps_gate ⟨fun _ => true, fun _ => true⟩ [] [] 0
      ⟨[], 0⟩).1 ⟨fun _ => rfl, fun _ => rfl⟩).1,
   (getDerivedStateFromProps_gate ⟨fun _ => true, fun _ => true⟩ []
      [("locale", JSVal.str "fr")] 0 ⟨[], 0⟩).2
    (fun h => absurd (h.2 "locale") (by decide))⟩

/-- Every shape `createIntl` returns carries the formatters built from the
cache it was given. -/
theorem createIntl_formattersCache (env : Env) (cfg : JSObj) (cache : Nat) :
    (createIntl env cfg cache).1.formattersCache = cache := by
  simp only [createIntl]
  by_cases h1 : truthy (getProp (resolvedOf cfg) "locale") = false
  · rw [if_pos h1]
  · rw [if_neg h1]
    by_cases h2 : (!env.numberSupported (getProp (resolvedOf cfg) "locale") &&
        truthy (getProp (resolvedOf cfg) "onError")) = true
    · rw [if_pos h2]
    · rw [if_neg h2]
      by_cases h3 : (!env.dateTimeSupported (getProp (resolvedOf cfg) "locale") &&
          truthy (getProp (resolvedOf cfg) "onError")) = true
      · rw [if_pos h3]
      · rw [if_neg h3]

/-- A non-`null` result of `getDerivedStateFromProps` is exactly the pair of
the shape freshly built from the normalized props with the state's cache,
and the normalized props. -/
theorem getDerivedStateFromProps_some_eq (env : Env) (props : JSObj)
    (st : State) (u : DerivedStateUpdate)
    (hg : getDerivedStateFromProps env props st = some u) :
    u = ⟨(createIntl env (processIntlConfig props) st.cache).1,
      processIntlConfig props⟩ := by
  by_cases hse : shallowEquals st.prevConfig (processIntlConfig props) = true
  · have hnone : getDerivedStateFromProps env props st = none := by
      simp [getDerivedStateFromProps, hse]
    rw [hnone] at hg
    cases hg
  · have hsome : getDerivedStateFromProps env props st =
        some ⟨(createIntl env (processIntlConfig props) st.cache).1,
          processIntlConfig props⟩ := by
      simp [getDerivedStateFromProps, hse]
    rw [hsome] at hg
    exact (Option.some.inj hg).symm

/-- Induction core for C7: a provider step never replaces the `cache` field
(the partial state returned on rebuild has no `cache` key, and
`applyDerivedState` keeps the old one), and every rebuild hands exactly the
state's `cache` field to `createIntl` (the trace records precisely the cache
argument `getDerivedStateFromProps` passes, by its definition). -/
theorem providerTrace_cache_const (env : Env) (updates : List JSObj) :
    ∀ (st : State) (x : Nat), st.cache = x →
      (providerTrace env st updates).1.cache = x ∧
      ∀ c ∈ (providerTrace env st updates).2, c = x := by
  induction updates with
  | nil =>
    intro st x hx
    exact ⟨hx, by intro c hc; cases hc⟩
  | cons p rest ih =>
    intro st x hx
    cases hg : getDerivedStateFromProps env p st with
    | none =>
      have hrec := ih st x hx
      simp only [providerTrace, hg]
      exact hrec
    | some u =>
      have hrec := ih ⟨st.cache, u.intl, u.prevConfig⟩ x hx
      simp only [providerTrace, hg, applyDerivedState]
      refine ⟨hrec.1, ?_⟩
      intro c hc
      rcases List.mem_cons.mp hc with rfl | hc2
      · exact hx
      · exact hrec.2 c hc2

/-- C7: across any sequence of prop updates, the provider's `cache` field is
never replaced (a rebuild overwrites only the `intl` and `prevConfig`
fields), the shape built at instantiation already carries formatters built
from the instance cache, and every `createIntl` call the gate makes receives
exactly the cache created at instantiation, for the lifetime of the
instance. -/
theorem provider_cache_stable (env : Env) (cacheId : Nat)
    (initialProps : JSObj) (updates : List JSObj) :
    (providerTrace env (initialState env cacheId initialProps) updates).1.cache
        = cacheId ∧
    (createIntl env (processIntlConfig initialProps) cacheId).1.formattersCache
        = cacheId ∧
    ∀ c ∈ (providerTrace env (initialState env cacheId initialProps) updates).2,
      c = cacheId := by
  refine ⟨?_, ?_, ?_⟩
  · exact (providerTrace_cache_const env updates
      (initialState env cacheId initialProps) cacheId rfl).1
  · exact createIntl_formattersCache env (processIntlConfig initialProps) cacheId
  · exact (providerTrace_cache_const env updates
      (initialState env cacheId initialProps) cacheId rfl).2

/-- Witness for C7 at a concrete run with one rebuilding update. -/
theorem provider_cache_stable_witness :
    (providerTrace ⟨fun _ => true, fun _ => true⟩
        (initialState ⟨fun _ => true, fun _ => true⟩ 5 [])
        [[("locale", JSVal.str "de")]]).1.cache = 5 :=
  (provider_cache_stable ⟨fun _ => true, fun _ => true⟩ 5 []
    [[("locale", JSVal.str "de")]]).1

/-- `createIntl` delivers at most one diagnostic per call: the three
diagnostic branches are mutually exclusive (`if / else if / else if`). -/
theorem createIntl_diags_at_most_one (env : Env) (cfg : JSObj) (cache : Nat) :
    (createIntl env cfg cache).2.length ≤ 1 := by
  simp only [createIntl]
  by_cases h1 : truthy (getProp (resolvedOf cfg) "locale") = false
  · rw [if_pos h1]
    by_cases h2 : truthy (getProp (resolvedOf cfg) "onError") = true
    · rw [if_pos h2]
      exact Nat.le_refl 1
    · rw [if_neg h2]
      exact Nat.zero_le 1
  · rw [if_neg h1]
    by_cases h2 : (!env.numberSupported (getProp (resolvedOf cfg) "locale") &&
        truthy (getProp (resolvedOf cfg) "onError")) = true
    · rw [if_pos h2]
      exact Nat.le_refl 1
    · rw [if_neg h2]
      by_cases h3 : (!env.dateTimeSupported (getProp (resolvedOf cfg) "locale") &&
          truthy (getProp (resolvedOf cfg) "onError")) = true
      · rw [if_pos h3]
        exact Nat.le_refl 1
      · rw [if_neg h3]
        exact Nat.zero_le 1

/-- C2 counterexample: for the configuration
`{locale: undefined, defaultLocale: undefined, onError: f}` the effective
locale becomes `"en"`, but the single configuration-error diagnostic names
`"undefined"` (the interpolation of the unresolved `defaultLocale`), not the
fallback locale `"en"` that is actually used — so the claim that the
diagnostic names the fallback locale fails as stated. -/
theorem createIntl_fallback_naming_counterexample :
    effectiveLocale (createIntl ⟨fun _ => true, fun _ => true⟩
        [("locale", JSVal.undef), ("defaultLocale", JSVal.undef),
         ("onError", JSVal.fnRef 0)] 0).1 = JSVal.str "en" ∧
    (createIntl ⟨fun _ => true, fun _ => true⟩
        [("locale", JSVal.undef), ("defaultLocale", JSVal.undef),
         ("onError", JSVal.fnRef 0)] 0).2 =
      [Diagnostic.invalidConfig "undefined"] ∧
    "undefined" ≠ "en" := by decide

/-- C2 (amended): when `locale` is absent, `createIntl` sets the effective
locale to the merged `defaultLocale` when that is truthy (a nonempty
string), and to the hard-coded `"en"` otherwise; when `onError` is truthy it
is invoked exactly once, with a configuration-error diagnostic naming the
merged `defaultLocale` as interpolated into the message (`"undefined"` when
it is absent) — which is the fallback locale actually used whenever
`defaultLocale` is truthy, but not when it is absent or empty.  When
`onError` is not configured, no diagnostic is delivered. -/
theorem createIntl_locale_absent (env : Env) (cfg : JSObj) (cache : Nat)
    (hnd : (cfg.map Prod.fst).Nodup)
    (hloc : getProp cfg "locale" = JSVal.undef) :
    effectiveLocale (createIntl env cfg cache).1 =
      (if truthy (configDefaultLocale cfg) = true then configDefaultLocale cfg
       else JSVal.str "en") ∧
    (createIntl env cfg cache).2 =
      (if truthy (getProp cfg "onError") = true
       then [Diagnostic.invalidConfig (render (configDefaultLocale cfg))]
       else []) := by
  have hl : getProp (resolvedOf cfg) "locale" = JSVal.undef :=
    (getProp_resolvedOf_locale cfg hnd).trans hloc
  have hdfl : getProp (resolvedOf cfg) "defaultLocale" = configDefaultLocale cfg :=
    getProp_resolvedOf_defaultLocale cfg hnd
  have honr : getProp (resolvedOf cfg) "onError" = getProp cfg "onError" :=
    getProp_resolvedOf_onError cfg hnd
  simp only [createIntl, effectiveLocale]
  rw [hl, hdfl, honr, if_pos (show truthy JSVal.undef = false by decide)]
  dsimp only
  exact ⟨getProp_setProp_self (resolvedOf cfg) "locale" _, rfl⟩

/-- Witness for the amended C2 at the spec's own test configuration
`{locale: undefined, defaultLocale: "fr", onError: f}`: the effective locale
is `"fr"` and the single diagnostic names `"fr"`. -/
theorem createIntl_locale_absent_witness :
    effectiveLocale (createIntl ⟨fun _ => true, fun _ => true⟩
        [("locale", JSVal.undef), ("defaultLocale", JSVal.str "fr"),
         ("onError", JSVal.fnRef 0)] 0).1 = JSVal.str "fr" ∧
    (createIntl ⟨fun _ => true, fun _ => true⟩
        [("locale", JSVal.undef), ("defaultLocale", JSVal.str "fr"),
         ("onError", JSVal.fnRef 0)] 0).2 =
      [Diagnostic.invalidConfig "fr"] := by
  have h := createIntl_locale_absent ⟨fun _ => true, fun _ => true⟩
    [("locale", JSVal.undef), ("defaultLocale", JSVal.str "fr"),
     ("onError", JSVal.fnRef 0)] 0 (by decide) (by decide)
  exact ⟨h.1.trans (by decide), h.2.trans (by decide)⟩

/-- C3: for a present (truthy) `locale` with `onError` configured, if the
platform reports no `Intl.NumberFormat` support for it, `createIntl`
delivers exactly one missing-data diagnostic for number formatting; if
number formatting is supported but `Intl.DateTimeFormat` is not, exactly one
missing-data diagnostic for date/time formatting (so the number-format check
takes precedence); in either case the shape's locale remains the requested
one, not the fallback.  The final conjunct states the branch exclusivity
globally: no call ever delivers more than one diagnostic. -/
theorem createIntl_missing_data (env : Env) (cfg : JSObj) (cache : Nat)
    (hnd : (cfg.map Prod.fst).Nodup)
    (hloc : truthy (getProp cfg "locale") = true)
    (hon : truthy (getProp cfg "onError") = true) :
    (env.numberSupported (getProp cfg "locale") = false →
      (createIntl env cfg cache).2 =
        [Diagnostic.missingNumberFormatData (render (getProp cfg "locale"))
          (render (configDefaultLocale cfg))]) ∧
    (env.numberSupported (getProp cfg "locale") = true →
      env.dateTimeSupported (getProp cfg "locale") = false →
      (createIntl env cfg cache).2 =
        [Diagnostic.missingDateTimeFormatData (render (getProp cfg "locale"))
          (render (configDefaultLocale cfg))]) ∧
    effectiveLocale (createIntl env cfg cache).1 = getProp cfg "locale" ∧
    (∀ (env2 : Env) (cfg2 : JSObj) (cache2 : Nat),
      (createIntl env2 cfg2 cache2).2.length ≤ 1) := by
  have hl : getProp (resolvedOf cfg) "locale" = getProp cfg "locale" :=
    getProp_resolvedOf_locale cfg hnd
  have hdfl : getProp (resolvedOf cfg) "defaultLocale" = configDefaultLocale cfg :=
    getProp_resolvedOf_defaultLocale cfg hnd
  have honr : getProp (resolvedOf cfg) "onError" = getProp cfg "onError" :=
    getProp_resolvedOf_onError cfg hnd
  refine ⟨?_, ?_, ?_, fun env2 cfg2 cache2 =>
    createIntl_diags_at_most_one env2 cfg2 cache2⟩
  · intro hns
    simp only [createIntl]
    rw [hl, hdfl, honr, hon, if_neg (by simp [hloc]), if_pos (by simp [hns])]
  · intro hns hds
    simp only [createIntl]
    rw [hl, hdfl, honr, hon, if_neg (by simp [hloc]), if_neg (by simp [hns]),
      if_pos (by simp [hds])]
  · simp only [createIntl, effectiveLocale]
    rw [hl, hdfl, honr, hon, if_neg (by simp [hloc])]
    by_cases h2 : (!env.numberSupported (getProp cfg "locale") && true) = true
    · rw [if_pos h2]
      dsimp only
      exact hl
    · rw [if_neg h2]
      by_cases h3 : (!env.dateTimeSupported (getProp cfg "locale") && true) = true
      · rw [if_pos h3]
        dsimp only
        exact hl
      · rw [if_neg h3]
        dsimp only
        exact hl

/-- Witness for C3: for the unsupported locale `"xx"` with `onError`
configured, exactly the number-format missing-data diagnostic fires (naming
`"xx"` and the default fallback `"en"`), and the shape's locale stays
`"xx"`. -/
theorem createIntl_missing_data_witness :
    (createIntl ⟨fun _ => false, fun _ => true⟩
        [("locale", JSVal.str "xx"), ("onError", JSVal.fnRef 0)] 0).2 =
      [Diagnostic.missingNumberFormatData "xx" "en"] ∧
    effectiveLocale (createIntl ⟨fun _ => false, fun _ => true⟩
        [("locale", JSVal.str "xx"), ("onError", JSVal.fnRef 0)] 0).1 =
      JSVal.str "xx" := by
  have h := createIntl_missing_data ⟨fun _ => false, fun _ => true⟩
    [("locale", JSVal.str "xx"), ("onError", JSVal.fnRef 0)] 0
    (by decide) (by decide) (by decide)
  exact ⟨(h.1 (by decide)).trans (by decide), h.2.2.1.trans (by decide)⟩

/-- C4: `createIntl` is a total function in the embedding (none of the
diagnostic paths throw), and when `onError` is absent no diagnostic is
delivered anywhere — the diagnostic list is empty, with no logging and no
throwing — while construction still returns a usable shape with the
fallback applied: the effective locale is the requested locale when truthy,
else the merged `defaultLocale` when truthy, else `"en"`. -/
theorem createIntl_no_onError_silent (env : Env) (cfg : JSObj) (cache : Nat)
    (hnd : (cfg.map Prod.fst).Nodup)
    (hon : getProp cfg "onError" = JSVal.undef) :
    (createIntl env cfg cache).2 = [] ∧
    effectiveLocale (createIntl env cfg cache).1 =
      (if truthy (getProp cfg "locale") = false
       then (if truthy (configDefaultLocale cfg) = true
         then configDefaultLocale cfg else JSVal.str "en")
       else getProp cfg "locale") := by
  have hl : getProp (resolvedOf cfg) "locale" = getProp cfg "locale" :=
    getProp_resolvedOf_locale cfg hnd
  have hdfl : getProp (resolvedOf cfg) "defaultLocale" = configDefaultLocale cfg :=
    getProp_resolvedOf_defaultLocale cfg hnd
  have honr : getProp (resolvedOf cfg) "onError" = JSVal.undef :=
    (getProp_resolvedOf_onError cfg hnd).trans hon
  simp only [createIntl, effectiveLocale]
  rw [hl, hdfl, honr]
  by_cases ht : truthy (getProp cfg "locale") = false
  · rw [if_pos ht, if_pos ht, if_neg (by decide : ¬ truthy JSVal.undef = true)]
    dsimp only
    exact ⟨rfl, getProp_setProp_self (resolvedOf cfg) "locale" _⟩
  · rw [if_neg ht, if_neg ht, if_neg (by simp [truthy]), if_neg (by simp [truthy])]
    dsimp only
    exact ⟨rfl, hl⟩

/-- Witness for C4: an unsupported locale with no `onError` yields no
diagnostic at all and a shape formatting with the requested locale. -/
theorem createIntl_no_onError_silent_witness :
    (createIntl ⟨fun _ => false, fun _ => false⟩
        [("locale", JSVal.str "zz")] 0).2 = [] ∧
    effectiveLocale (createIntl ⟨fun _ => false, fun _ => false⟩
        [("locale", JSVal.str "zz")] 0).1 = JSVal.str "zz" := by
  have h := createIntl_no_onError_silent ⟨fun _ => false, fun _ => false⟩
    [("locale", JSVal.str "zz")] 0 (by decide) (by decide)
  exact ⟨h.1, h.2.trans (by decide)⟩

end ReactIntl
